import Mathlib

/-!
Verification of the segment pipeline of the anime-content-creator repository.

Each namespace embeds one source module as pure Lean functions:

* ProcessSegmentedVideo — the Shotstack timeline builder
  (createSegmentedVideoWithShotstack): image clips with cumulative start
  offsets, audio and caption tracks whose clip length is the reduced sum of
  the per-segment durations.
* ConcatenateAudioChunks — the audio chunk concatenation endpoint: sorting
  by chunkIndex before the ffmpeg manifest and the returned segment list.
* GenerateSegmentedAudio — the per-chunk synthesis loop (segmentIndex
  assignment on success, failures skipped), the ffprobe duration probe with
  its validation and fallback, and the ffmpeg concatenation helper.
* SupabaseUtils — the second ffprobe duration probe (getAudioDuration) used
  by upload-api-keys, which parses the JSON output without validation.
* GenerateWellsaidAudio — the word-boundary text chunker and the
  single-chunk fast path that skips concatenation.
* AudioGenerator — the sentence-based text chunker of the UI component.
* GenerateAudioChunk — the WellSaid synthesis retry loop with rate-limit
  backoff and the (hard-coded) credential handling.
* PollTranscription — the Shotstack transcription status mapping.

Numbers that are JavaScript floats in the source are modelled as rationals;
a JavaScript number that can be NaN is modelled by the JsNum type.
-/

namespace AnimeContent

/-- A JavaScript number that may be NaN: parseFloat returns nan for a string
with no leading numeric literal, and a rational value otherwise. -/
inductive JsNum where
  | nan
  | num (val : ℚ)
deriving DecidableEq, Repr

/-! ## ProcessSegmentedVideo: timeline builder (createSegmentedVideoWithShotstack) -/

namespace ProcessSegmentedVideo

/-- One entry of the segmentTimings request field: an image URL paired with
its measured duration in seconds. -/
structure SegmentTiming where
  imageUrl : String
  duration : ℚ
deriving DecidableEq, Repr

/-- One clip of the Shotstack image track: asset source, start offset and
length, as pushed by the loop of createSegmentedVideoWithShotstack. -/
structure ImageClip where
  src : String
  start : ℚ
  length : ℚ
deriving DecidableEq, Repr

/-- The image-track loop: for each i the clip starts at the running
currentTime and lasts segmentTimings[i].duration, after which currentTime
is advanced by that duration.  The recursion carries currentTime as the
accumulator cur.  The handler validates imageUrls.length =
segmentTimings.length before this loop runs, so the mismatched-length
fallback case is never reached on validated input. -/
def imageClipsAux : List String → List SegmentTiming → ℚ → List ImageClip
  | u :: us, t :: ts, cur =>
      ⟨u, cur, t.duration⟩ :: imageClipsAux us ts (cur + t.duration)
  | _, _, _ => []

/-- The image track of the Shotstack timeline, built starting from
currentTime = 0. -/
def buildImageClips (imageUrls : List String) (timings : List SegmentTiming) :
    List ImageClip :=
  imageClipsAux imageUrls timings 0

/-- segmentTimings.reduce((sum, timing) => sum + timing.duration, 0): the
length given to the single clip of the audio track. -/
def audioClipLength (timings : List SegmentTiming) : ℚ :=
  timings.foldl (fun s t => s + t.duration) 0

/-- segmentTimings.reduce((sum, timing) => sum + timing.duration, 0): the
length given to the single clip of the caption track. -/
def captionClipLength (timings : List SegmentTiming) : ℚ :=
  timings.foldl (fun s t => s + t.duration) 0

theorem foldl_add_duration (timings : List SegmentTiming) (a : ℚ) :
    timings.foldl (fun s t => s + t.duration) a
      = a + (timings.map SegmentTiming.duration).sum := by
  induction timings generalizing a with
  | nil => simp
  | cons t ts ih => simp [List.foldl_cons, ih, add_assoc]

theorem imageClipsAux_length (us : List String) (ts : List SegmentTiming)
    (cur : ℚ) (h : us.length = ts.length) :
    (imageClipsAux us ts cur).length = us.length := by
  induction us generalizing ts cur with
  | nil => cases ts <;> simp [imageClipsAux]
  | cons u us ih =>
      cases ts with
      | nil => simp at h
      | cons t ts =>
          simp only [List.length_cons, Nat.succ_inj] at h
          simp [imageClipsAux, ih ts _ h]

theorem imageClipsAux_start (us : List String) (ts : List SegmentTiming)
    (cur : ℚ) (i : ℕ) (h : us.length = ts.length) (hi : i < us.length) :
    (imageClipsAux us ts cur)[i]?.map ImageClip.start
      = some (cur + ((ts.map SegmentTiming.duration).take i).sum) := by
  induction us generalizing ts cur i with
  | nil => exact absurd hi (by simp)
  | cons u us ih =>
      cases ts with
      | nil => simp at h
      | cons t ts =>
          simp only [List.length_cons, Nat.succ_inj] at h
          cases i with
          | zero => simp [imageClipsAux]
          | succ i =>
              have hi2 : i < us.length := Nat.lt_of_succ_lt_succ hi
              simp only [imageClipsAux, List.getElem?_cons_succ, List.map_cons,
                List.take_succ_cons, List.sum_cons]
              rw [ih ts (cur + t.duration) i h hi2]
              simp [add_assoc]

end ProcessSegmentedVideo

/-! ## ConcatenateAudioChunks: the audio chunk concatenation endpoint -/

namespace ConcatenateAudioChunks

/-- One element of the audioChunks request field. -/
structure AudioChunk where
  chunkIndex : ℤ
  audioUrl : String
  text : String
deriving DecidableEq, Repr

/-- One element of the audioSegments response field (duration is set to the
literal 0 by the handler). -/
structure AudioSegmentOut where
  segmentIndex : ℤ
  audioUrl : String
  text : String
  duration : ℚ
deriving DecidableEq, Repr

/-- audioChunks.sort((a, b) => a.chunkIndex - b.chunkIndex): a stable sort
ascending by chunkIndex, modelled by mergeSort (JavaScript Array sort is
specified to be stable). -/
def sortedChunks (audioChunks : List AudioChunk) : List AudioChunk :=
  audioChunks.mergeSort (fun a b => decide (a.chunkIndex ≤ b.chunkIndex))

/-- The lines of the ffmpeg concat manifest input_list.txt: one local file
per chunk, written in the order of sortedChunks (the download loop walks
sortedChunks and names each file chunk_(chunkIndex).mp3). -/
def manifestEntries (audioChunks : List AudioChunk) : List String :=
  (sortedChunks audioChunks).map
    (fun c => "file chunk_" ++ toString c.chunkIndex ++ ".mp3")

/-- The audioSegments list of the JSON response, built by mapping over
sortedChunks. -/
def audioSegments (audioChunks : List AudioChunk) : List AudioSegmentOut :=
  (sortedChunks audioChunks).map
    (fun c => ⟨c.chunkIndex, c.audioUrl, c.text, 0⟩)

end ConcatenateAudioChunks

/-! ## GenerateSegmentedAudio: per-chunk synthesis loop, probe, concatenation -/

namespace GenerateSegmentedAudio

/-- What the body of the per-chunk try block amounts to for one narration
chunk: either audio generation and the duration probe both succeed (with
the resulting audio URL and probed duration), or some step threw (the
error message is pushed to the errors list and the chunk is skipped). -/
inductive SynthOutcome where
  | ok (audioUrl : String) (duration : ℚ)
  | err (message : String)
deriving DecidableEq, Repr

/-- One narration chunk of the request together with the outcome of its
processing iteration. -/
structure ChunkRun where
  narration : String
  outcome : SynthOutcome
deriving DecidableEq, Repr

/-- One element of the audioSegments array built by the loop. -/
structure AudioSegment where
  segmentIndex : ℕ
  audioUrl : String
  duration : ℚ
  text : String
deriving DecidableEq, Repr

/-- The loop of the POST handler: i counts every chunk (success or failure);
a segment with segmentIndex = i is pushed only when the iteration
succeeds, and failing chunks are skipped without renumbering. -/
def collectAux : List ChunkRun → ℕ → List AudioSegment
  | [], _ => []
  | r :: rs, i =>
      match r.outcome with
      | .ok u d => ⟨i, u, d, r.narration⟩ :: collectAux rs (i + 1)
      | .err _ => collectAux rs (i + 1)

/-- The audioSegments array after the loop over all narration chunks,
starting at index 0. -/
def audioSegmentsOf (runs : List ChunkRun) : List AudioSegment :=
  collectAux runs 0

theorem collectAux_spec (rs : List ChunkRun) (i : ℕ) :
    (∀ s ∈ collectAux rs i,
        i ≤ s.segmentIndex ∧ s.segmentIndex - i < rs.length ∧
          rs[s.segmentIndex - i]?
            = some ⟨s.text, SynthOutcome.ok s.audioUrl s.duration⟩)
      ∧ List.Pairwise (· < ·)
          ((collectAux rs i).map AudioSegment.segmentIndex) := by
  induction rs generalizing i with
  | nil => simp [collectAux]
  | cons r rs ih =>
      obtain ⟨ihMem, ihPair⟩ := ih (i + 1)
      have idxShift : ∀ s ∈ collectAux rs (i + 1),
          i ≤ s.segmentIndex ∧ s.segmentIndex - i < (r :: rs).length ∧
            (r :: rs)[s.segmentIndex - i]?
              = some ⟨s.text, SynthOutcome.ok s.audioUrl s.duration⟩ := by
        intro s hs
        obtain ⟨h1, h2, h3⟩ := ihMem s hs
        have hstep : s.segmentIndex - i = (s.segmentIndex - (i + 1)) + 1 := by
          omega
        refine ⟨by omega, by simp only [List.length_cons]; omega, ?_⟩
        rw [hstep, List.getElem?_cons_succ]
        exact h3
      have tailGt : ∀ s ∈ collectAux rs (i + 1), i < s.segmentIndex := by
        intro s hs
        exact lt_of_lt_of_le (Nat.lt_succ_self i) (ihMem s hs).1
      cases houtcome : r.outcome with
      | ok u d =>
          constructor
          · intro s hs
            simp only [collectAux, houtcome, List.mem_cons] at hs
            rcases hs with hhead | htail
            · subst hhead
              refine ⟨le_refl _, by simp, ?_⟩
              simp [← houtcome]
            · exact idxShift s htail
          · simp only [collectAux, houtcome, List.map_cons, List.pairwise_cons]
            refine ⟨?_, ihPair⟩
            intro n hn
            simp only [List.mem_map] at hn
            obtain ⟨s, hs, rfl⟩ := hn
            exact tailGt s hs
      | err m =>
          constructor
          · intro s hs
            simp only [collectAux, houtcome] at hs
            exact idxShift s hs
          · simp only [collectAux, houtcome]
            exact ihPair

/-- The observable steps taken by concatenateAudioFilesWithFFmpeg, in
order: download each segment, write the ffmpeg concat manifest, run the
ffmpeg concatenation subprocess, upload the resulting file. -/
inductive ConcatStep where
  | download (url : String)
  | writeManifest (lineCount : ℕ)
  | ffmpegConcat
  | upload (destinationPath : String)
deriving DecidableEq, Repr

/-- The public URL handed back by uploadFileToSupabase for a destination
path inside the storage bucket. -/
def publicUrlOf (destinationPath : String) : String :=
  "https://storage.example/" ++ destinationPath

/-- concatenateAudioFilesWithFFmpeg: downloads every segment, writes
concat_list.txt, runs ffmpeg -f concat unconditionally (the function has no
single-element fast path), and returns the public URL of the freshly
uploaded final_audio file.  timestamp stands for Date.now(). -/
def concatenateAudioFilesWithFFmpeg (audioSegments : List AudioSegment)
    (userId : String) (timestamp : ℕ) : List ConcatStep × String :=
  let steps :=
    audioSegments.map (fun s => ConcatStep.download s.audioUrl)
      ++ [ConcatStep.writeManifest audioSegments.length,
          ConcatStep.ffmpegConcat,
          ConcatStep.upload
            (userId ++ "/final_audio/final_audio_" ++ toString timestamp
              ++ ".mp3")]
  (steps,
   publicUrlOf
     (userId ++ "/final_audio/final_audio_" ++ toString timestamp ++ ".mp3"))

end GenerateSegmentedAudio

/-! ## SupabaseUtils: the second ffprobe duration probe (getAudioDuration) -/

namespace SupabaseUtils

/-- What one run of the upload-api-keys getAudioDuration amounts to.
thrown: some awaited step threw (download failure, file write failure,
ffprobe exiting non-zero, JSON.parse failure, or a missing format object),
landing in the catch block.  parsed v: the ffprobe JSON parsed with a
format object, and v is parseFloat(data.format.duration) — nan when the
duration field is absent or not numeric, otherwise the parsed number,
which the code returns without any positivity or NaN check. -/
inductive ProbeRun where
  | thrown
  | parsed (v : JsNum)
deriving DecidableEq, Repr

/-- getAudioDuration of supabase-utils: every thrown error is absorbed and
replaced by the 300-second fallback; a parsed value is returned as is. -/
def getAudioDuration : ProbeRun → JsNum
  | .thrown => .num 300
  | .parsed v => v

end SupabaseUtils

/-! ## GenerateSegmentedAudio: the validated ffprobe duration probe -/

namespace GenerateSegmentedAudio

/-- What the ffprobe child process of the generate-segmented-audio
getAudioDuration produced: a spawn error, or a close event with an exit
code and the collected stdout.  blank models stdout whose trim() is empty;
parsed v models non-blank stdout whose parseFloat result is v. -/
inductive FfprobeEvent where
  | spawnError
  | close (code : ℤ) (stdout : Option JsNum)
deriving DecidableEq, Repr

/-- getAudioDuration of generate-segmented-audio: the promise resolves only
when the exit code is 0, stdout is non-blank and parses to a duration
strictly greater than 0; every other case rejects and the catch block
returns the 8-second fallback. -/
def getAudioDuration : FfprobeEvent → ℚ
  | .spawnError => 8
  | .close code stdout =>
      if code = 0 then
        match stdout with
        | none => 8
        | some .nan => 8
        | some (.num d) => if 0 < d then d else 8
      else 8

end GenerateSegmentedAudio

/-! ## Text model: characters, whitespace tokens, space joining -/

/-- The ASCII whitespace characters relevant to the narration texts handled
by the chunkers (JavaScript trim and whitespace splitting cover these). -/
def isWhitespace (c : Char) : Bool :=
  c = ' ' || c = '\t' || c = '\n' || c = '\r'

/-- Accumulator pass extracting the maximal runs of non-whitespace
characters; acc holds the current run reversed. -/
def tokensGo : List Char → List Char → List (List Char)
  | [], acc => if acc = [] then [] else [acc.reverse]
  | c :: cs, acc =>
      if isWhitespace c then
        if acc = [] then tokensGo cs [] else acc.reverse :: tokensGo cs []
      else tokensGo cs (c :: acc)

/-- The non-whitespace tokens of a text, in order. -/
def tokens (l : List Char) : List (List Char) :=
  tokensGo l []

/-- Joining a chunk list with single spaces. -/
def joinWithSpaces : List (List Char) → List Char
  | [] => []
  | c :: rest =>
      match rest with
      | [] => c
      | _ :: _ => c ++ ' ' :: joinWithSpaces rest

theorem tokensGo_append (c : Char) (hc : isWhitespace c = true)
    (xs ys : List Char) :
    ∀ acc, tokensGo (xs ++ c :: ys) acc = tokensGo xs acc ++ tokensGo ys [] := by
  induction xs with
  | nil =>
      intro acc
      by_cases hacc : acc = []
      · simp [tokensGo, hc, hacc]
      · simp [tokensGo, hc, hacc]
  | cons x xs ih =>
      intro acc
      by_cases hx : isWhitespace x
      · by_cases hacc : acc = []
        · simp [tokensGo, hx, hacc, ih]
        · simp [tokensGo, hx, hacc, ih]
      · simp [tokensGo, hx, ih]

theorem tokens_append_space (xs ys : List Char) :
    tokens (xs ++ ' ' :: ys) = tokens xs ++ tokens ys :=
  tokensGo_append ' ' (by decide) xs ys []

theorem tokens_join (L : List (List Char)) :
    tokens (joinWithSpaces L) = (L.map tokens).flatten := by
  induction L with
  | nil => simp [joinWithSpaces, tokens, tokensGo]
  | cons c rest ih =>
      cases rest with
      | nil => simp [joinWithSpaces, tokens, tokensGo]
      | cons d ds =>
          show tokens (c ++ ' ' :: joinWithSpaces (d :: ds)) = _
          rw [tokens_append_space, ih]
          simp

/-! ## GenerateWellsaidAudio: word-boundary chunker and single-chunk path -/

namespace GenerateWellsaidAudio

/-- text.split(' '): splits on every single space character, producing
empty pieces for adjacent, leading or trailing spaces; acc holds the
current piece reversed. -/
def splitOnSpaceGo : List Char → List Char → List (List Char)
  | [], acc => [acc.reverse]
  | c :: cs, acc =>
      if c = ' ' then acc.reverse :: splitOnSpaceGo cs []
      else splitOnSpaceGo cs (c :: acc)

/-- The word list text.split(' ') of the chunker. -/
def splitOnSpace (l : List Char) : List (List Char) :=
  splitOnSpaceGo l []

/-- The for-of loop of splitTextIntoChunks: testChunk appends the next word
to currentChunk with a space (or is the word itself when currentChunk is
empty); if it fits it becomes the new currentChunk, otherwise a non-empty
currentChunk is flushed and the word starts the next chunk, and a word
that alone exceeds maxLength is pushed verbatim as its own chunk.  After
the loop a non-empty currentChunk is flushed. -/
def chunksLoop (maxLength : ℕ) :
    List (List Char) → List (List Char) → List Char → List (List Char)
  | [], chunks, current =>
      if current = [] then chunks else chunks ++ [current]
  | w :: ws, chunks, current =>
      let testChunk := if current = [] then w else current ++ ' ' :: w
      if testChunk.length ≤ maxLength then
        chunksLoop maxLength ws chunks testChunk
      else if current = [] then
        chunksLoop maxLength ws (chunks ++ [w]) []
      else
        chunksLoop maxLength ws (chunks ++ [current]) w

/-- splitTextIntoChunks of generate-wellsaid-audio: texts no longer than
maxLength are returned as the single chunk [text]; otherwise the text is
split on spaces and re-packed greedily by chunksLoop. -/
def splitTextIntoChunks (text : List Char) (maxLength : ℕ) :
    List (List Char) :=
  if text.length ≤ maxLength then [text]
  else chunksLoop maxLength (splitOnSpace text) [] []

/-- The externally observable steps of the POST handler after all chunks
have been synthesized to temp files. -/
inductive FinalizeStep where
  | writeConcatFile (lineCount : ℕ)
  | ffmpegConcat
  | uploadFile (path : String)
  | unlink (path : String)
deriving DecidableEq, Repr

/-- Which bytes the returned audioUrl serves: the unchanged content of one
temp file, or the ffmpeg concatenation of several. -/
inductive AudioSource where
  | fileContent (path : String)
  | concatenationOf (paths : List String)
deriving DecidableEq, Repr

/-- The tail of the POST handler: with exactly one chunk the temp file is
uploaded directly (no concat file, no ffmpeg) and then unlinked; with any
other number of files the concat manifest is written, ffmpeg runs once,
the result is uploaded and all temp files are unlinked. -/
def finalizeAudio (tempAudioFiles : List String) (timestamp : ℕ) :
    List FinalizeStep × AudioSource :=
  match tempAudioFiles with
  | [f] => ([.uploadFile f, .unlink f], .fileContent f)
  | fs =>
      ([.writeConcatFile fs.length, .ffmpegConcat,
        .uploadFile ("wellsaid-final-" ++ toString timestamp ++ ".mp3")]
         ++ fs.map FinalizeStep.unlink,
       .concatenationOf fs)

theorem splitOnSpaceGo_ne_nil (l : List Char) :
    ∀ acc, splitOnSpaceGo l acc ≠ [] := by
  induction l with
  | nil => intro acc; simp [splitOnSpaceGo]
  | cons c cs ih =>
      intro acc
      by_cases hc : c = ' ' <;> simp [splitOnSpaceGo, hc, ih]

theorem splitOnSpaceGo_reconstruct (l : List Char) :
    ∀ acc, joinWithSpaces (splitOnSpaceGo l acc) = acc.reverse ++ l := by
  induction l with
  | nil => intro acc; simp [splitOnSpaceGo, joinWithSpaces]
  | cons c cs ih =>
      intro acc
      by_cases hc : c = ' '
      · subst hc
        have hne : splitOnSpaceGo cs [] ≠ [] := splitOnSpaceGo_ne_nil cs []
        simp only [splitOnSpaceGo, if_pos rfl]
        obtain ⟨d, ds, hds⟩ := List.exists_cons_of_ne_nil hne
        rw [hds]
        show acc.reverse ++ ' ' :: joinWithSpaces (d :: ds) = _
        rw [← hds, ih []]
        simp
      · simp only [splitOnSpaceGo, if_neg hc]
        rw [ih (c :: acc)]
        simp

theorem joinWithSpaces_splitOnSpace (text : List Char) :
    joinWithSpaces (splitOnSpace text) = text := by
  simpa using splitOnSpaceGo_reconstruct text []

theorem tokens_flatten_words (text : List Char) :
    ((splitOnSpace text).map tokens).flatten = tokens text := by
  rw [← tokens_join, joinWithSpaces_splitOnSpace]

theorem chunksLoop_cons (maxLength : ℕ) (w : List Char)
    (ws chunks : List (List Char)) (current : List Char) :
    chunksLoop maxLength (w :: ws) chunks current
      = (let testChunk := if current = [] then w else current ++ ' ' :: w
         if testChunk.length ≤ maxLength then
           chunksLoop maxLength ws chunks testChunk
         else if current = [] then
           chunksLoop maxLength ws (chunks ++ [w]) []
         else
           chunksLoop maxLength ws (chunks ++ [current]) w) := rfl

theorem chunksLoop_tokens (maxLength : ℕ) (ws : List (List Char)) :
    ∀ (chunks : List (List Char)) (current : List Char),
      ((chunksLoop maxLength ws chunks current).map tokens).flatten
        = (chunks.map tokens).flatten ++ tokens current
            ++ (ws.map tokens).flatten := by
  induction ws with
  | nil =>
      intro chunks current
      by_cases hcur : current = []
      · simp [chunksLoop, hcur, tokens, tokensGo]
      · simp [chunksLoop, hcur]
  | cons w ws ih =>
      intro chunks current
      rw [chunksLoop_cons]
      by_cases hcur : current = []
      · subst hcur
        by_cases hfit : w.length ≤ maxLength
        · simp only [if_pos rfl, reduceIte, hfit]
          rw [ih]
          simp [tokens, tokensGo]
        · simp only [if_pos rfl, reduceIte, hfit]
          rw [ih]
          simp [tokens, tokensGo]
      · have htest : tokens (current ++ ' ' :: w) = tokens current ++ tokens w :=
          tokens_append_space current w
        by_cases hfit : (current ++ ' ' :: w).length ≤ maxLength
        · simp only [if_neg hcur, if_pos hfit]
          rw [ih, htest]
          simp
        · simp only [if_neg hcur, if_neg hfit]
          rw [ih]
          simp

theorem chunker_preserves_tokens (text : List Char) (maxLength : ℕ) :
    tokens (joinWithSpaces (splitTextIntoChunks text maxLength))
      = tokens text := by
  unfold splitTextIntoChunks
  by_cases hshort : text.length ≤ maxLength
  · rw [if_pos hshort]
    show tokens text = tokens text
    rfl
  · rw [if_neg hshort, tokens_join, chunksLoop_tokens]
    simp [tokens_flatten_words, tokens, tokensGo]

/-- The shape of every chunk the loop can emit: it fits in maxLength, or it
is one of the words W emitted verbatim because it alone exceeds maxLength;
either way it is non-empty. -/
def GoodChunk (maxLength : ℕ) (W : List (List Char)) (c : List Char) : Prop :=
  (c.length ≤ maxLength ∨ (c ∈ W ∧ maxLength < c.length)) ∧ c ≠ []

theorem chunksLoop_good (maxLength : ℕ) (W : List (List Char)) :
    ∀ (ws chunks : List (List Char)) (current : List Char),
      (∀ w ∈ ws, w ∈ W) →
      (current = [] ∨ GoodChunk maxLength W current) →
      (∀ c ∈ chunks, GoodChunk maxLength W c) →
      ∀ c ∈ chunksLoop maxLength ws chunks current,
        GoodChunk maxLength W c := by
  intro ws
  induction ws with
  | nil =>
      intro chunks current _hw hcur hchunks c hc
      by_cases h : current = []
      · rw [show chunksLoop maxLength [] chunks current
            = if current = [] then chunks else chunks ++ [current] from rfl,
          if_pos h] at hc
        exact hchunks c hc
      · rw [show chunksLoop maxLength [] chunks current
            = if current = [] then chunks else chunks ++ [current] from rfl,
          if_neg h] at hc
        rcases List.mem_append.mp hc with h1 | h1
        · exact hchunks c h1
        · rcases hcur with hcur | hcur
          · exact absurd hcur h
          · simpa [List.mem_singleton.mp h1] using hcur
  | cons w ws ih =>
      intro chunks current hw hcur hchunks c hc
      rw [chunksLoop_cons] at hc
      have hwW : w ∈ W := hw w (by simp)
      have hwsW : ∀ v ∈ ws, v ∈ W := fun v hv => hw v (by simp [hv])
      by_cases h : current = []
      · subst h
        simp only [reduceIte] at hc
        by_cases hfit : w.length ≤ maxLength
        · rw [if_pos hfit] at hc
          refine ih chunks w hwsW ?_ hchunks c hc
          by_cases hwnil : w = []
          · exact Or.inl hwnil
          · exact Or.inr ⟨Or.inl hfit, hwnil⟩
        · rw [if_neg hfit] at hc
          refine ih (chunks ++ [w]) [] hwsW (Or.inl rfl) ?_ c hc
          intro d hd
          rcases List.mem_append.mp hd with h1 | h1
          · exact hchunks d h1
          · have hdw : d = w := List.mem_singleton.mp h1
            subst hdw
            refine ⟨Or.inr ⟨hwW, Nat.lt_of_not_le hfit⟩, ?_⟩
            intro hnil
            exact hfit (by simp [hnil])
      · simp only [if_neg h] at hc
        have hcurGood : GoodChunk maxLength W current := by
          rcases hcur with h1 | h1
          · exact absurd h1 h
          · exact h1
        by_cases hfit : (current ++ ' ' :: w).length ≤ maxLength
        · rw [if_pos hfit] at hc
          refine ih chunks (current ++ ' ' :: w) hwsW ?_ hchunks c hc
          exact Or.inr ⟨Or.inl hfit, by simp⟩
        · rw [if_neg hfit] at hc
          refine ih (chunks ++ [current]) w hwsW ?_ ?_ c hc
          · by_cases hwnil : w = []
            · exact Or.inl hwnil
            · by_cases hwfit : w.length ≤ maxLength
              · exact Or.inr ⟨Or.inl hwfit, hwnil⟩
              · exact Or.inr ⟨Or.inr ⟨hwW, Nat.lt_of_not_le hwfit⟩, hwnil⟩
          · intro d hd
            rcases List.mem_append.mp hd with h1 | h1
            · exact hchunks d h1
            · simpa [List.mem_singleton.mp h1] using hcurGood

end GenerateWellsaidAudio

/-! ## AudioGenerator: the sentence-based chunker of the UI component -/

namespace AudioGenerator

/-- A sentence terminator of the regex character class [.!?]. -/
def isTerminator (c : Char) : Bool :=
  c = '.' || c = '!' || c = '?'

/-- Splitting on single terminator characters; acc holds the current piece
reversed.  The source splits on the regex [.!?]+ (maximal terminator runs);
the two differ only by interspersed empty pieces, which the immediately
following filter on trimmed length removes, so the filtered sentence lists
coincide. -/
def splitOnTerminatorGo : List Char → List Char → List (List Char)
  | [], acc => [acc.reverse]
  | c :: cs, acc =>
      if isTerminator c then acc.reverse :: splitOnTerminatorGo cs []
      else splitOnTerminatorGo cs (c :: acc)

/-- text.split(regex of terminators). -/
def splitOnTerminator (l : List Char) : List (List Char) :=
  splitOnTerminatorGo l []

/-- String.trim: strip whitespace from both ends. -/
def trim (l : List Char) : List Char :=
  ((l.dropWhile isWhitespace).reverse.dropWhile isWhitespace).reverse

/-- The for-of loop over the filtered sentences: a sentence joins the
current chunk with the separator ". " when the combined length plus one
stays within maxChunkSize; otherwise a non-empty current chunk is flushed
with a trailing period and the sentence starts the next chunk.  After the
loop a non-empty current chunk is flushed with a trailing period. -/
def sentencesLoop (maxChunkSize : ℕ) :
    List (List Char) → List (List Char) → List Char → List (List Char)
  | [], chunks, current =>
      if current = [] then chunks else chunks ++ [current ++ ['.']]
  | s :: ss, chunks, current =>
      let t := trim s
      if current.length + t.length + 1 ≤ maxChunkSize then
        sentencesLoop maxChunkSize ss chunks
          (if current = [] then t else current ++ '.' :: ' ' :: t)
      else
        sentencesLoop maxChunkSize ss
          (if current = [] then chunks else chunks ++ [current ++ ['.']]) t

/-- splitTextIntoChunks of the audio-generator component: split into
sentences at terminator runs, drop blank sentences, re-pack greedily with
". " separators and trailing periods, and fall back to [text] when no
chunk was produced. -/
def splitTextIntoChunks (text : List Char) (maxChunkSize : ℕ) :
    List (List Char) :=
  let sentences :=
    (splitOnTerminator text).filter (fun s => decide (0 < (trim s).length))
  let chunks := sentencesLoop maxChunkSize sentences [] []
  if 0 < chunks.length then chunks else [text]

end AudioGenerator

/-! ## GenerateAudioChunk: the WellSaid synthesis retry loop -/

namespace GenerateAudioChunk

/-- Classification of one WellSaid API response as the loop sees it:
a rate-limit signal (HTTP 429 or a rate-limit message), an auth failure
(401/403), any other non-ok response (thrown, not retried), or success. -/
inductive WsResp where
  | rateLimited
  | authError
  | otherError
  | success
deriving DecidableEq, Repr

/-- The API key the handler actually uses: the getValidApiKey call is
commented out in the source and replaced by this constant. -/
def hardcodedApiKey : String := "3ae0d806-3e6a-4ba5-a0d8-063e6a6ba50c"

/-- One row of the api_keys_rezu table. -/
structure ApiKeyRecord where
  apiKey : String
  isValid : Bool
  useCount : ℕ
deriving DecidableEq, Repr

/-- markApiKeyAsInvalid: set is_valid to false on the matching row. -/
def markApiKeyAsInvalid (pool : List ApiKeyRecord) (key : String) :
    List ApiKeyRecord :=
  pool.map (fun r => if r.apiKey = key then ⟨r.apiKey, false, r.useCount⟩ else r)

/-- getValidApiKey of supabase-utils: among rows with is_valid true and
use_count below 50, the one with the least use_count (ties resolved by
row order, matching an ascending order with limit 1). -/
def getValidApiKey (pool : List ApiKeyRecord) : Option String :=
  match pool.filter (fun r => r.isValid && decide (r.useCount < 50)) with
  | [] => none
  | c :: cs =>
      some ((cs.foldl
        (fun best r => if r.useCount < best.useCount then r else best)
        c).apiKey)

/-- How one run of the POST handler ends: a 200 with the audio URL, a 429
after exceeding the rate-limit retry budget, a 500 for a non-retryable
provider error, a 503 once the 10-attempt ceiling is reached, or pending
when the modelled response script ran out. -/
inductive ChunkOutcome where
  | success
  | rateLimitExceeded
  | apiError
  | exhausted
  | pending
deriving DecidableEq, Repr

/-- The observable trace of a run: the backoff delays awaited in order,
the API key used on each attempt in order, the final outcome and the
final state of the credential pool. -/
structure LoopTrace where
  delays : List ℕ
  keysUsed : List String
  outcome : ChunkOutcome
  pool : List ApiKeyRecord
deriving DecidableEq, Repr

/-- The delay awaited before the k-th rate-limit retry:
min(2000 * 2^(k-1), 30000) milliseconds. -/
def delayFor (k : ℕ) : ℕ :=
  min (2000 * 2 ^ (k - 1)) 30000

/-- The while loop of the POST handler, driven by the scripted provider
responses.  attemptCount is checked against the ceiling 10 at entry and
incremented each iteration; a rate-limit retry within the budget of 5
waits the backoff delay and decrements attemptCount back before
continuing (so rate-limit retries do not consume the ceiling); an auth
failure marks the hardcoded key invalid, resets the rate-limit counter
and continues — with the very same hardcoded key, because the pool lookup
is commented out. -/
def runAttempts : List WsResp → ℕ → ℕ → List ApiKeyRecord → LoopTrace
  | resps, attemptCount, rateLimitRetries, pool =>
      if 10 ≤ attemptCount then ⟨[], [], .exhausted, pool⟩
      else
        match resps with
        | [] => ⟨[], [], .pending, pool⟩
        | .success :: _ => ⟨[], [hardcodedApiKey], .success, pool⟩
        | .otherError :: _ => ⟨[], [hardcodedApiKey], .apiError, pool⟩
        | .rateLimited :: rest =>
            if rateLimitRetries + 1 ≤ 5 then
              let t := runAttempts rest attemptCount (rateLimitRetries + 1) pool
              ⟨delayFor (rateLimitRetries + 1) :: t.delays,
               hardcodedApiKey :: t.keysUsed, t.outcome, t.pool⟩
            else ⟨[], [hardcodedApiKey], .rateLimitExceeded, pool⟩
        | .authError :: rest =>
            let t := runAttempts rest (attemptCount + 1) 0
              (markApiKeyAsInvalid pool hardcodedApiKey)
            ⟨t.delays, hardcodedApiKey :: t.keysUsed, t.outcome, t.pool⟩

/-- A full run of the handler: attemptCount and rateLimitRetries start at
0 with the given credential pool state. -/
def runChunkGeneration (resps : List WsResp) (pool : List ApiKeyRecord) :
    LoopTrace :=
  runAttempts resps 0 0 pool

theorem runAttempts_rate (rest : List WsResp) (a rlr : ℕ)
    (pool : List ApiKeyRecord) (ha : a < 10) (hrlr : rlr + 1 ≤ 5) :
    runAttempts (.rateLimited :: rest) a rlr pool
      = ⟨delayFor (rlr + 1) :: (runAttempts rest a (rlr + 1) pool).delays,
         hardcodedApiKey :: (runAttempts rest a (rlr + 1) pool).keysUsed,
         (runAttempts rest a (rlr + 1) pool).outcome,
         (runAttempts rest a (rlr + 1) pool).pool⟩ := by
  rw [runAttempts]
  simp [Nat.not_le.mpr ha, hrlr]

theorem runAttempts_rate_exceeded (rest : List WsResp) (a : ℕ)
    (pool : List ApiKeyRecord) (ha : a < 10) :
    runAttempts (.rateLimited :: rest) a 5 pool
      = ⟨[], [hardcodedApiKey], .rateLimitExceeded, pool⟩ := by
  rw [runAttempts]
  simp [Nat.not_le.mpr ha]

theorem runAttempts_rate_replicate (rest : List WsResp) (a : ℕ)
    (pool : List ApiKeyRecord) (k : ℕ) :
    ∀ rlr, a < 10 → rlr + k ≤ 5 →
      runAttempts (List.replicate k .rateLimited ++ rest) a rlr pool
        = ⟨(List.range k).map (fun j => delayFor (rlr + 1 + j))
             ++ (runAttempts rest a (rlr + k) pool).delays,
           List.replicate k hardcodedApiKey
             ++ (runAttempts rest a (rlr + k) pool).keysUsed,
           (runAttempts rest a (rlr + k) pool).outcome,
           (runAttempts rest a (rlr + k) pool).pool⟩ := by
  induction k with
  | zero => intro rlr _ha _hk; simp
  | succ k ih =>
      intro rlr ha hk
      have h1 : rlr + 1 ≤ 5 := by omega
      rw [List.replicate_succ, List.cons_append,
        runAttempts_rate (List.replicate k WsResp.rateLimited ++ rest)
          a rlr pool ha h1,
        ih (rlr + 1) ha (by omega)]
      have hidx : rlr + 1 + k = rlr + (k + 1) := by omega
      rw [hidx]
      have hmap : (List.range (k + 1)).map (fun j => delayFor (rlr + 1 + j))
          = delayFor (rlr + 1)
              :: (List.range k).map (fun j => delayFor (rlr + 1 + 1 + j)) := by
        rw [List.range_succ_eq_map, List.map_cons, List.map_map]
        refine congrArg₂ _ (by simp) ?_
        refine List.map_congr_left ?_
        intro j _hj
        show delayFor (rlr + 1 + (j + 1)) = delayFor (rlr + 1 + 1 + j)
        congr 1
        omega
      rw [hmap]
      simp [List.replicate_succ]

end GenerateAudioChunk

/-! ## PollTranscription: provider status to stage and progress mapping -/

namespace PollTranscription

/-- The stage label and the estimatedProgress value chosen by the branch
ladder of the poll handler, given the two provider status strings (none
models an absent field, which is falsy in the source) and the raw provider
progress (already defaulted to 0 by the source when absent). -/
def stageAndEstimate (status transcription : Option String) (progress : ℚ) :
    String × ℚ :=
  if status = some "uploading" ∨ status = some "uploaded" then
    ("uploading", max progress 10)
  else if status = some "processing" then
    if transcription = some "processing" then
      ("transcribing", max progress 40)
    else if transcription = some "uploaded" ∨ transcription = none then
      ("preparing", max progress 20)
    else
      ("analyzing", max progress 15)
  else if status = some "ready" ∧ transcription = some "processing" then
    ("transcribing", max progress 80)
  else if status = some "ready" ∧ transcription = none then
    ("preparing", max progress 30)
  else
    ("analyzing", progress)

/-- The stage-specific clamp applied after the branch ladder: uploading is
capped at 25, preparing confined to 25..40, analyzing to 40..60,
transcribing to 60..90. -/
def bucketClamp (stage : String) (e : ℚ) : ℚ :=
  if stage = "uploading" then min e 25
  else if stage = "preparing" then min (max e 25) 40
  else if stage = "analyzing" then min (max e 40) 60
  else if stage = "transcribing" then min (max e 60) 90
  else e

/-- The progress percentage of the still-processing JSON response: the
clamped estimate capped at 95. -/
def mappedProgress (status transcription : Option String) (progress : ℚ) :
    ℚ :=
  min
    (bucketClamp (stageAndEstimate status transcription progress).1
      (stageAndEstimate status transcription progress).2)
    95

/-- Whether the poll response is terminal: completed (both statuses ready)
or failed (either status failed).  Anything else is reported as
processing. -/
def isTerminal (status transcription : Option String) : Bool :=
  (status = some "ready" && transcription = some "ready")
    || status = some "failed" || transcription = some "failed"

theorem stageAndEstimate_fst_const (status transcription : Option String)
    (p q : ℚ) :
    (stageAndEstimate status transcription p).1
      = (stageAndEstimate status transcription q).1 := by
  unfold stageAndEstimate
  split_ifs <;> rfl

set_option maxHeartbeats 1000000 in
theorem stageAndEstimate_snd_mono (status transcription : Option String)
    (p q : ℚ) (h : p ≤ q) :
    (stageAndEstimate status transcription p).2
      ≤ (stageAndEstimate status transcription q).2 := by
  unfold stageAndEstimate
  split_ifs <;> first
    | exact max_le_max h le_rfl
    | exact h

set_option maxHeartbeats 1000000 in
theorem bucketClamp_mono (stage : String) (e f : ℚ) (h : e ≤ f) :
    bucketClamp stage e ≤ bucketClamp stage f := by
  unfold bucketClamp
  split_ifs <;> first
    | exact min_le_min h le_rfl
    | exact min_le_min (max_le_max h le_rfl) le_rfl
    | exact h

end PollTranscription

end AnimeContent

namespace AnimeContent

open GenerateSegmentedAudio GenerateWellsaidAudio in
/-- Claim C4 counterexample: the audio joiner of generate-segmented-audio
runs the external ffmpeg concatenation even for a single-element input,
and the URL it returns is a fresh upload, not the input element. -/
theorem C4_counterexample_single_element_runs_ffmpeg :
    ConcatStep.ffmpegConcat
        ∈ (concatenateAudioFilesWithFFmpeg
            [⟨0, "https://storage.example/u/segA.mp3", 2, "t"⟩] "u" 1).1
      ∧ (concatenateAudioFilesWithFFmpeg
            [⟨0, "https://storage.example/u/segA.mp3", 2, "t"⟩] "u" 1).2
          ≠ "https://storage.example/u/segA.mp3" := by
  constructor
  · simp [concatenateAudioFilesWithFFmpeg]
  · decide

open GenerateSegmentedAudio GenerateWellsaidAudio in
/-- Claim C4 amended: the generate-wellsaid-audio handler treats a
single-element input as an identity — it serves the single temp file's
bytes unchanged and never runs ffmpeg — whereas the joiner of
generate-segmented-audio runs the ffmpeg concatenation on every input,
single-element lists included. -/
theorem C4_single_element_identity (f : String) (timestamp : ℕ)
    (segments : List AudioSegment) (userId : String) :
    (finalizeAudio [f] timestamp).2 = AudioSource.fileContent f
      ∧ FinalizeStep.ffmpegConcat ∉ (finalizeAudio [f] timestamp).1
      ∧ ConcatStep.ffmpegConcat
          ∈ (concatenateAudioFilesWithFFmpeg segments userId timestamp).1 := by
  refine ⟨rfl, ?_, ?_⟩
  · intro h
    simp [finalizeAudio] at h
  · simp [concatenateAudioFilesWithFFmpeg]

open SupabaseUtils in
/-- Claim C5 counterexample: when ffprobe runs to completion but its JSON
carries a non-positive duration, the upload-api-keys probe returns that
value unchanged — 0 rather than a positive fallback — and when the
duration field is missing or non-numeric it returns NaN. -/
theorem C5_counterexample_nonpositive_passthrough :
    SupabaseUtils.getAudioDuration (.parsed (.num 0)) = .num 0
      ∧ ¬ (0 : ℚ) < 0
      ∧ SupabaseUtils.getAudioDuration (.parsed .nan) = .nan
      ∧ JsNum.nan ≠ JsNum.num 300 := by
  refine ⟨rfl, by norm_num, rfl, by decide⟩

/-- Claim C5 amended: neither probe throws to its caller (both are modelled
as total functions whose catch blocks yield fallbacks); the
generate-segmented-audio probe always returns a positive duration (its
fallback is 8 and it validates the parsed value), while the
upload-api-keys probe returns the fallback 300 exactly when some step
threw, and otherwise passes the parsed value through unvalidated. -/
theorem C5_probe_fallback_behaviour (e : GenerateSegmentedAudio.FfprobeEvent)
    (v : JsNum) :
    0 < GenerateSegmentedAudio.getAudioDuration e
      ∧ SupabaseUtils.getAudioDuration .thrown = .num 300
      ∧ SupabaseUtils.getAudioDuration (.parsed v) = v := by
  refine ⟨?_, rfl, rfl⟩
  cases e with
  | spawnError => norm_num [GenerateSegmentedAudio.getAudioDuration]
  | close code stdout =>
      by_cases hcode : code = 0
      · subst hcode
        cases stdout with
        | none => norm_num [GenerateSegmentedAudio.getAudioDuration]
        | some j =>
            cases j with
            | nan => norm_num [GenerateSegmentedAudio.getAudioDuration]
            | num d =>
                by_cases hd : 0 < d
                · simp [GenerateSegmentedAudio.getAudioDuration, hd]
                · norm_num [GenerateSegmentedAudio.getAudioDuration, hd]
      · norm_num [GenerateSegmentedAudio.getAudioDuration, hcode]

open GenerateWellsaidAudio AudioGenerator in
/-- Claim C8 counterexample: the sentence-based chunker of the
audio-generator component rewrites terminators, so rejoining its chunks
with single spaces does not recover the original non-whitespace tokens:
for the text Hi! Bye. it produces the chunk Hi. Bye. and the token Hi!
comes back as Hi. -/
theorem C8_counterexample_sentence_chunker :
    tokens (joinWithSpaces
        (AudioGenerator.splitTextIntoChunks ("Hi! Bye.").toList 500))
      ≠ tokens ("Hi! Bye.").toList := by
  decide

open GenerateWellsaidAudio in
/-- Claim C8 amended: for the word-boundary chunker of
generate-wellsaid-audio the round trip does hold — for every text and
maxLength, rejoining its chunks with single spaces recovers exactly the
original non-whitespace tokens in order; the sentence-based chunker of the
audio-generator component does not have this property because it rewrites
sentence terminators to periods. -/
theorem C8_wellsaid_chunker_preserves_tokens (text : List Char)
    (maxLength : ℕ) :
    tokens (joinWithSpaces
        (GenerateWellsaidAudio.splitTextIntoChunks text maxLength))
      = tokens text :=
  chunker_preserves_tokens text maxLength

open GenerateWellsaidAudio in
/-- Claim C9 counterexample: for the empty text (and maxLength 5 > 0) the
word-boundary chunker returns the single chunk equal to the empty string,
so the no-empty-chunk part of the claim fails as stated for every text. -/
theorem C9_counterexample_empty_text :
    GenerateWellsaidAudio.splitTextIntoChunks [] 5 = [[]]
      ∧ ([] : List Char) ∈ GenerateWellsaidAudio.splitTextIntoChunks [] 5 := by
  decide

open GenerateWellsaidAudio in
/-- Claim C9 amended: every chunk returned by the word-boundary chunker
either fits in maxLength or is one of the space-delimited words of the
text, emitted verbatim because it alone exceeds maxLength; and provided
the text is non-empty, no returned chunk is the empty string. -/
theorem C9_chunk_length_bound (text : List Char) (maxLength : ℕ) :
    (∀ chunk ∈ GenerateWellsaidAudio.splitTextIntoChunks text maxLength,
        chunk.length ≤ maxLength
          ∨ (chunk ∈ splitOnSpace text ∧ maxLength < chunk.length))
      ∧ (text ≠ [] →
          ∀ chunk ∈ GenerateWellsaidAudio.splitTextIntoChunks text maxLength,
            chunk ≠ []) := by
  by_cases hshort : text.length ≤ maxLength
  · constructor
    · intro chunk hchunk
      rw [GenerateWellsaidAudio.splitTextIntoChunks, if_pos hshort] at hchunk
      have : chunk = text := List.mem_singleton.mp hchunk
      subst this
      exact Or.inl hshort
    · intro htext chunk hchunk
      rw [GenerateWellsaidAudio.splitTextIntoChunks, if_pos hshort] at hchunk
      have : chunk = text := List.mem_singleton.mp hchunk
      subst this
      exact htext
  · have hgood : ∀ c ∈ chunksLoop maxLength (splitOnSpace text) [] [],
        GoodChunk maxLength (splitOnSpace text) c :=
      chunksLoop_good maxLength (splitOnSpace text) (splitOnSpace text) [] []
        (fun w hw => hw) (Or.inl rfl) (by simp)
    constructor
    · intro chunk hchunk
      rw [GenerateWellsaidAudio.splitTextIntoChunks, if_neg hshort] at hchunk
      exact (hgood chunk hchunk).1
    · intro _htext chunk hchunk
      rw [GenerateWellsaidAudio.splitTextIntoChunks, if_neg hshort] at hchunk
      exact (hgood chunk hchunk).2

open GenerateWellsaidAudio in
/-- Claim C9 witness: for the 11-character text hello world with maxLength
5 every chunk is within the bound or a verbatim overlong word, and since
the text is non-empty the first chunk is non-empty. -/
theorem C9_chunk_length_bound_witness :
    (("hello world").toList ≠ []
        ∧ "hello".toList
            ∈ GenerateWellsaidAudio.splitTextIntoChunks
                ("hello world").toList 5)
      ∧ ("hello".toList.length ≤ 5
          ∨ ("hello".toList ∈ splitOnSpace ("hello world").toList
              ∧ 5 < "hello".toList.length))
      ∧ "hello".toList ≠ [] :=
  ⟨⟨by decide, by decide⟩,
   (C9_chunk_length_bound ("hello world").toList 5).1 "hello".toList
     (by decide),
   (C9_chunk_length_bound ("hello world").toList 5).2 (by decide)
     "hello".toList (by decide)⟩

open GenerateSegmentedAudio GenerateWellsaidAudio in
/-- Claim C4 amended witness: one temp file is served unchanged without
ffmpeg by the wellsaid handler, while the segmented-audio joiner runs
ffmpeg on a one-element list. -/
theorem C4_single_element_identity_witness :
    (finalizeAudio ["chunk1.mp3"] 7).2 = AudioSource.fileContent "chunk1.mp3"
      ∧ FinalizeStep.ffmpegConcat ∉ (finalizeAudio ["chunk1.mp3"] 7).1
      ∧ ConcatStep.ffmpegConcat
          ∈ (concatenateAudioFilesWithFFmpeg
              [⟨0, "a.mp3", 2, "t"⟩] "u" 7).1 :=
  C4_single_element_identity "chunk1.mp3" 7 [⟨0, "a.mp3", 2, "t"⟩] "u"

/-- Claim C5 amended witness: a clean ffprobe run returning 2 seconds is
positive, a thrown error in the upload-api-keys probe yields 300, and a
parsed NaN is passed through. -/
theorem C5_probe_fallback_behaviour_witness :
    0 < GenerateSegmentedAudio.getAudioDuration (.close 0 (some (.num 2)))
      ∧ SupabaseUtils.getAudioDuration .thrown = .num 300
      ∧ SupabaseUtils.getAudioDuration (.parsed .nan) = .nan :=
  C5_probe_fallback_behaviour (.close 0 (some (.num 2))) .nan

open GenerateWellsaidAudio in
/-- Claim C8 amended witness: the word-boundary chunker splits the text
one two three at maxLength 7 and rejoining recovers its tokens. -/
theorem C8_wellsaid_chunker_preserves_tokens_witness :
    tokens (joinWithSpaces
        (GenerateWellsaidAudio.splitTextIntoChunks
          ("one two three").toList 7))
      = tokens ("one two three").toList :=
  C8_wellsaid_chunker_preserves_tokens ("one two three").toList 7

open GenerateAudioChunk in
/-- Claim C6: the delay waited before the k-th rate-limit retry of a run is
min(2000 * 2^(k-1), 30000) milliseconds; the k rate-limit retries leave the
overall attempt counter unchanged (the remainder of the run continues with
the same attempt budget a, so rate-limit retries do not consume the
10-attempt ceiling); and six consecutive rate-limit responses end the job
with the rate-limit-exceeded (HTTP 429) outcome after exactly the five
delays 2000, 4000, 8000, 16000, 30000. -/
theorem C6_rate_limit_backoff (rest : List WsResp) (a : ℕ)
    (pool : List ApiKeyRecord) (k : ℕ) (ha : a < 10) (hk : k ≤ 5) :
    runAttempts (List.replicate k WsResp.rateLimited ++ rest) a 0 pool
        = ⟨(List.range k).map (fun j => delayFor (j + 1))
             ++ (runAttempts rest a k pool).delays,
           List.replicate k hardcodedApiKey
             ++ (runAttempts rest a k pool).keysUsed,
           (runAttempts rest a k pool).outcome,
           (runAttempts rest a k pool).pool⟩
      ∧ (runAttempts (List.replicate 6 WsResp.rateLimited) a 0 pool).outcome
          = ChunkOutcome.rateLimitExceeded
      ∧ (runAttempts (List.replicate 6 WsResp.rateLimited) a 0 pool).delays
          = [2000, 4000, 8000, 16000, 30000]
      ∧ ∀ j : ℕ, delayFor j = min (2000 * 2 ^ (j - 1)) 30000 := by
  have hsplit : List.replicate 6 WsResp.rateLimited
      = List.replicate 5 WsResp.rateLimited ++ [WsResp.rateLimited] := by
    decide
  have hfive := runAttempts_rate_replicate [WsResp.rateLimited] a pool 5 0 ha
    (by omega)
  have hexceeded := runAttempts_rate_exceeded [] a pool ha
  refine ⟨?_, ?_, ?_, fun j => rfl⟩
  · rw [runAttempts_rate_replicate rest a pool k 0 ha (by omega)]
    have hz : 0 + k = k := by omega
    have hfun : (List.range k).map (fun j => delayFor (0 + 1 + j))
        = (List.range k).map (fun j => delayFor (j + 1)) := by
      refine List.map_congr_left ?_
      intro j _hj
      congr 1
      omega
    rw [hz, hfun]
  · rw [hsplit, hfive]
    simp only [Nat.zero_add]
    rw [hexceeded]
  · rw [hsplit, hfive]
    simp only [Nat.zero_add]
    rw [hexceeded]
    dsimp only
    decide

open GenerateAudioChunk in
/-- Claim C6 witness: from a fresh run, six rate-limit responses produce
the delays 2000, 4000, 8000, 16000, 30000 and the 429 outcome. -/
theorem C6_rate_limit_backoff_witness :
    ((0 : ℕ) < 10 ∧ (2 : ℕ) ≤ 5)
      ∧ (runAttempts (List.replicate 6 WsResp.rateLimited) 0 0 []).outcome
          = ChunkOutcome.rateLimitExceeded
      ∧ (runAttempts (List.replicate 6 WsResp.rateLimited) 0 0 []).delays
          = [2000, 4000, 8000, 16000, 30000] :=
  ⟨⟨by decide, by decide⟩,
   (C6_rate_limit_backoff [] 0 [] 2 (by decide) (by decide)).2.1,
   (C6_rate_limit_backoff [] 0 [] 2 (by decide) (by decide)).2.2.1⟩

open GenerateAudioChunk in
/-- Claim C7 evaluation at the failing input: ten consecutive auth
failures against a pool holding the hardcoded key and a fresh valid key.
The handler uses the hardcoded key on every one of the ten attempts —
including every attempt after the key was marked invalid — never selects
the fresh key even though the pool query would return it, and ends with
the pool-exhausted outcome. -/
theorem C7_auth_failure_reuses_hardcoded_key :
    (runChunkGeneration (List.replicate 10 WsResp.authError)
          [⟨hardcodedApiKey, true, 0⟩, ⟨"fresh-key", true, 0⟩]).keysUsed
        = List.replicate 10 hardcodedApiKey
      ∧ (runChunkGeneration (List.replicate 10 WsResp.authError)
            [⟨hardcodedApiKey, true, 0⟩, ⟨"fresh-key", true, 0⟩]).outcome
          = ChunkOutcome.exhausted
      ∧ (runChunkGeneration (List.replicate 10 WsResp.authError)
            [⟨hardcodedApiKey, true, 0⟩, ⟨"fresh-key", true, 0⟩]).pool
          = [⟨hardcodedApiKey, false, 0⟩, ⟨"fresh-key", true, 0⟩]
      ∧ getValidApiKey [⟨hardcodedApiKey, false, 0⟩, ⟨"fresh-key", true, 0⟩]
          = some "fresh-key"
      ∧ "fresh-key" ∉ (runChunkGeneration (List.replicate 10 WsResp.authError)
            [⟨hardcodedApiKey, true, 0⟩, ⟨"fresh-key", true, 0⟩]).keysUsed := by
  decide

open PollTranscription in
/-- Claim C10 counterexample: two successive provider responses, both
mapped to the processing state, whose mapped progress decreases: with raw
progress 70 in both, (processing, processing) maps to 70 but the later
(ready, no transcription status) maps to 40. -/
theorem C10_counterexample_progress_decreases :
    isTerminal (some "processing") (some "processing") = false
      ∧ isTerminal (some "ready") none = false
      ∧ mappedProgress (some "processing") (some "processing") 70 = 70
      ∧ mappedProgress (some "ready") none 70 = 40
      ∧ ¬ ((70 : ℚ) ≤ 40) := by
  refine ⟨by decide, by decide, by decide, by decide, by norm_num⟩

open PollTranscription in
/-- Claim C10 amended: the poll handler is stateless, so monotonicity
holds per provider status pair, not across them: for any fixed pair of
provider status strings the mapped progress is non-decreasing in the raw
provider progress (and each stage's output is confined to its bucket),
but two polls whose provider status pair changes can map to a lower
progress, as the counterexample shows. -/
theorem C10_mapped_progress_monotone (status transcription : Option String)
    (p q : ℚ) (h : p ≤ q) :
    mappedProgress status transcription p
      ≤ mappedProgress status transcription q := by
  unfold mappedProgress
  refine min_le_min ?_ le_rfl
  rw [stageAndEstimate_fst_const status transcription p q]
  exact bucketClamp_mono _ _ _
    (stageAndEstimate_snd_mono status transcription p q h)

open PollTranscription in
/-- Claim C10 amended witness: with the provider stuck uploading, raw
progress rising from 10 to 20 never lowers the mapped progress. -/
theorem C10_mapped_progress_monotone_witness :
    ((10 : ℚ) ≤ 20)
      ∧ mappedProgress (some "uploading") none 10
          ≤ mappedProgress (some "uploading") none 20 :=
  ⟨by norm_num,
   C10_mapped_progress_monotone (some "uploading") none 10 20 (by norm_num)⟩

end AnimeContent

namespace AnimeContent

open ProcessSegmentedVideo in
/-- Claim C1: for every list of segment timings passed to the segmented-video
timeline builder, the i-th image clip starts at the sum of the durations of
segments 0..i-1 (so the first clip starts at 0), and the audio and caption
track clips are given length equal to the sum of all segment durations. -/
theorem C1_timeline_offsets (imageUrls : List String)
    (timings : List SegmentTiming)
    (h : imageUrls.length = timings.length) (i : ℕ)
    (hi : i < imageUrls.length) :
    (buildImageClips imageUrls timings)[i]?.map ImageClip.start
        = some (((timings.map SegmentTiming.duration).take i).sum)
      ∧ audioClipLength timings = (timings.map SegmentTiming.duration).sum
      ∧ captionClipLength timings = (timings.map SegmentTiming.duration).sum := by
  refine ⟨?_, ?_, ?_⟩
  · have := imageClipsAux_start imageUrls timings 0 i h hi
    simpa [buildImageClips] using this
  · simpa using foldl_add_duration timings 0
  · simpa using foldl_add_duration timings 0

open ProcessSegmentedVideo in
/-- Claim C1 witness: durations [2, 3.5, 1.2] give the third clip the start
offset 5.5 and hand the audio and caption tracks the total length 6.7. -/
theorem C1_timeline_offsets_witness :
    (["u0", "u1", "u2"].length
        = [SegmentTiming.mk "u0" 2, SegmentTiming.mk "u1" (7/2),
           SegmentTiming.mk "u2" (6/5)].length)
      ∧ ((buildImageClips ["u0", "u1", "u2"]
            [SegmentTiming.mk "u0" 2, SegmentTiming.mk "u1" (7/2),
             SegmentTiming.mk "u2" (6/5)])[2]?.map ImageClip.start
          = some ((([SegmentTiming.mk "u0" 2, SegmentTiming.mk "u1" (7/2),
              SegmentTiming.mk "u2" (6/5)].map SegmentTiming.duration).take 2).sum)
        ∧ audioClipLength [SegmentTiming.mk "u0" 2, SegmentTiming.mk "u1" (7/2),
            SegmentTiming.mk "u2" (6/5)]
          = ([SegmentTiming.mk "u0" 2, SegmentTiming.mk "u1" (7/2),
              SegmentTiming.mk "u2" (6/5)].map SegmentTiming.duration).sum
        ∧ captionClipLength [SegmentTiming.mk "u0" 2, SegmentTiming.mk "u1" (7/2),
            SegmentTiming.mk "u2" (6/5)]
          = ([SegmentTiming.mk "u0" 2, SegmentTiming.mk "u1" (7/2),
              SegmentTiming.mk "u2" (6/5)].map SegmentTiming.duration).sum) :=
  ⟨by decide,
   C1_timeline_offsets ["u0", "u1", "u2"]
     [SegmentTiming.mk "u0" 2, SegmentTiming.mk "u1" (7/2),
      SegmentTiming.mk "u2" (6/5)] (by decide) 2 (by decide)⟩

open ConcatenateAudioChunks in
/-- Claim C2: whatever order the audio chunks arrive in, the concatenation
endpoint sorts them ascending by chunkIndex before the concat manifest is
written and before the returned audioSegments list is built: the sorted
list is a permutation of the input, its chunkIndex sequence is ascending,
the manifest lines follow that sorted order, and the returned segment list
carries the same ascending segmentIndex sequence. -/
theorem C2_chunks_sorted_by_index (audioChunks : List AudioChunk) :
    (sortedChunks audioChunks).Perm audioChunks
      ∧ List.Pairwise (fun a b : AudioChunk => a.chunkIndex ≤ b.chunkIndex)
          (sortedChunks audioChunks)
      ∧ manifestEntries audioChunks
          = (sortedChunks audioChunks).map
              (fun c => "file chunk_" ++ toString c.chunkIndex ++ ".mp3")
      ∧ (audioSegments audioChunks).map AudioSegmentOut.segmentIndex
          = (sortedChunks audioChunks).map AudioChunk.chunkIndex
      ∧ List.Pairwise (· ≤ ·)
          ((audioSegments audioChunks).map AudioSegmentOut.segmentIndex) := by
  have hsorted : List.Pairwise
      (fun a b : AudioChunk => a.chunkIndex ≤ b.chunkIndex)
      (sortedChunks audioChunks) := by
    have := @List.sorted_mergeSort AudioChunk
      (fun a b : AudioChunk => decide (a.chunkIndex ≤ b.chunkIndex))
      (fun a b c hab hbc => by
        simp only [decide_eq_true_eq] at *; exact le_trans hab hbc)
      (fun a b => by
        simp only [Bool.or_eq_true, decide_eq_true_eq]
        exact le_total a.chunkIndex b.chunkIndex)
      audioChunks
    refine this.imp ?_
    intro a b hab
    simpa using hab
  refine ⟨List.mergeSort_perm audioChunks _, hsorted, rfl, ?_, ?_⟩
  · simp [audioSegments]
  · have : (audioSegments audioChunks).map AudioSegmentOut.segmentIndex
        = (sortedChunks audioChunks).map AudioChunk.chunkIndex := by
      simp [audioSegments]
    rw [this, List.pairwise_map]
    exact hsorted

open GenerateSegmentedAudio in
/-- Claim C3: over N narration chunks, every produced AudioSegment carries
segmentIndex equal to its chunk's original position (the chunk at that
position is exactly the successful run that produced it), failing chunks
are skipped without renumbering, and the segmentIndex values form a
duplicate-free subset of 0..N-1 listed in strictly increasing order. -/
theorem C3_segment_indices (runs : List ChunkRun) :
    List.Pairwise (· < ·)
        ((audioSegmentsOf runs).map AudioSegment.segmentIndex)
      ∧ ∀ s ∈ audioSegmentsOf runs,
          s.segmentIndex < runs.length ∧
            runs[s.segmentIndex]?
              = some ⟨s.text, SynthOutcome.ok s.audioUrl s.duration⟩ := by
  obtain ⟨hmem, hpair⟩ := collectAux_spec runs 0
  refine ⟨hpair, ?_⟩
  intro s hs
  obtain ⟨-, h2, h3⟩ := hmem s hs
  simpa using ⟨h2, h3⟩

open GenerateSegmentedAudio in
/-- Claim C3 witness: with chunk 1 of 3 failing, the produced segmentIndex
sequence is [0, 2] (the gap is preserved, not renumbered), and segment 0 is
exactly the successful run of chunk 0. -/
theorem C3_segment_indices_witness :
    ((audioSegmentsOf
        [⟨"Hello world.", .ok "a0.mp3" 2⟩,
         ⟨"Scene two text.", .err "synthesis failed"⟩,
         ⟨"Final scene.", .ok "a2.mp3" (6/5)⟩]).map AudioSegment.segmentIndex
      = [0, 2])
      ∧ List.Pairwise (· < ·)
          ((audioSegmentsOf
            [⟨"Hello world.", .ok "a0.mp3" 2⟩,
             ⟨"Scene two text.", .err "synthesis failed"⟩,
             ⟨"Final scene.", .ok "a2.mp3" (6/5)⟩]).map AudioSegment.segmentIndex)
      ∧ ((0 : ℕ) < 3 ∧
          ([⟨"Hello world.", .ok "a0.mp3" 2⟩,
            ⟨"Scene two text.", .err "synthesis failed"⟩,
            ⟨"Final scene.", .ok "a2.mp3" (6/5)⟩] :
              List ChunkRun)[(0 : ℕ)]?
            = some ⟨"Hello world.", SynthOutcome.ok "a0.mp3" 2⟩) :=
  ⟨by decide,
   (C3_segment_indices
     [⟨"Hello world.", .ok "a0.mp3" 2⟩,
      ⟨"Scene two text.", .err "synthesis failed"⟩,
      ⟨"Final scene.", .ok "a2.mp3" (6/5)⟩]).1,
   by
     have h := (C3_segment_indices
       [⟨"Hello world.", .ok "a0.mp3" 2⟩,
        ⟨"Scene two text.", .err "synthesis failed"⟩,
        ⟨"Final scene.", .ok "a2.mp3" (6/5)⟩]).2
       ⟨0, "a0.mp3", 2, "Hello world."⟩ (by decide)
     exact h⟩

end AnimeContent
